import Mathlib

/-!
Shallow embedding of the news-aggregation pipeline (Go package `data`):
the normalized article record, the pipeline configuration, the fan-out
orchestrator `RunNewsPipeline`, the four source adapters, the retrying
HTTP helper `doGetWithRetry`, and the deduplicator `deduplicateArticles`.

Effectful collaborators are modelled as explicit parameters:
* the SHA-1 title digest is an abstract function `hash : String → String`
  (treated as collision-free where a claim needs it);
* `time.Parse` is `parse : String → Option GoTime` (`none` = parse error);
* `json.Unmarshal` is a `decode : String → Option _` parameter;
* the network is a function from the request URL to the outcome of each
  `client.Do` attempt.
-/

namespace GoNews

/-- Model of Go `time.Time`: either the zero value `time.Time{}` or a
wall-clock instant (as produced by `time.Unix` or a successful parse). -/
inductive GoTime where
  | zeroTime : GoTime
  | unix : Int → GoTime
deriving DecidableEq, Repr

/-- Structure `NewsArticle` — the normalized record every adapter produces. -/
structure NewsArticle where
  source : String
  title : String
  description : String
  url : String
  publishedAt : GoTime
deriving DecidableEq, Repr

/-- Structure `NewsPipelineConfig` — per-source enable/skip flags and limits. -/
structure NewsPipelineConfig where
  FreeMode : Bool
  UseMarketaux : Bool
  MarketauxLimit : Int
  UseFinnhub : Bool
  FinnhubLimit : Int
  UseEODHD : Bool
  EODHDLimit : Int
  UseGoogleCSE : Bool
  GoogleCSELimit : Int
  SkipMarketaux : Bool
  SkipFinnhub : Bool
  SkipEODHD : Bool
  SkipGoogleCSE : Bool
deriving DecidableEq, Repr

/-- Deduplication key: `fmt.Sprintf("%s_%x", a.URL, sha1.Sum([]byte(a.Title)))`,
with the SHA-1 hex digest abstracted as `hash`. -/
def dedupKey (hash : String → String) (a : NewsArticle) : String :=
  a.url ++ "_" ++ hash a.title

/-- The loop of `deduplicateArticles`: walk the list, keeping a record iff its
key is not in the `seen` set (the Go `map[string]struct\x7b\x7d`). -/
def dedupLoop (hash : String → String) : List NewsArticle → List String → List NewsArticle
  | [], _ => []
  | a :: rest, seen =>
    if dedupKey hash a ∈ seen then dedupLoop hash rest seen
    else a :: dedupLoop hash rest (dedupKey hash a :: seen)

/-- Function `deduplicateArticles` — removes duplicates by URL + title hash,
first occurrence wins. -/
def deduplicateArticles (hash : String → String) (articles : List NewsArticle) : List NewsArticle :=
  dedupLoop hash articles []

/-- Spec-side deduplication ("order-preserving, first-occurrence-wins"):
keep the head, then recursively keep only records whose key differs from the
head's. Used as the refinement target for the order-preservation claim. -/
def firstOccurrences (hash : String → String) : List NewsArticle → List NewsArticle
  | [] => []
  | a :: rest =>
    a :: firstOccurrences hash (rest.filter fun b => dedupKey hash b != dedupKey hash a)
termination_by l => l.length
decreasing_by
  simp only [List.length_cons]
  exact Nat.lt_succ_of_le (List.length_filter_le _ _)

/-! ## Resilient fetch: `doGetWithRetry` -/

/-- Outcome of one `client.Do` call: a transport error, or a response with
its status code together with the data and error that `io.ReadAll` of its
body would produce. -/
inductive AttemptOutcome where
  | transport : String → AttemptOutcome
  | response : Nat → String → Option String → AttemptOutcome
deriving DecidableEq, Repr

/-- Observable result of `doGetWithRetry`: the returned `([]byte, error)`
pair plus the number of `client.Do` calls and `time.Sleep` delays made. -/
structure RetryResult where
  body : Option String
  err : Option String
  calls : Nat
  sleeps : Nat
deriving DecidableEq, Repr

/-- One iteration of the retry loop after `client.Do`: a transport error, a
status other than `http.StatusOK` (exactly 200), or a body-read error sets
`lastErr` and continues; otherwise the body is returned. -/
def attemptOnce (o : AttemptOutcome) : Except String String :=
  match o with
  | .transport e => .error e
  | .response status body readErr =>
    if status ≠ 200 then
      .error ("status " ++ toString status ++ ": " ++ body)
    else
      match readErr with
      | some e => .error e
      | none => .ok body

/-- Bookkeeping for a failed attempt: one more `client.Do` call and one
more fixed 500 ms `time.Sleep` before the loop continues. -/
def afterFailure (r : RetryResult) : RetryResult :=
  ⟨r.body, r.err, r.calls + 1, r.sleeps + 1⟩

/-- The `for i := 0; i < 3; i++` loop of `doGetWithRetry`, with `fuel`
remaining iterations and `lastErr` the error of the previous attempt. -/
def doGetLoop (attempts : Nat → AttemptOutcome) : Nat → Nat → Option String → RetryResult
  | _, 0, lastErr => ⟨none, lastErr, 0, 0⟩
  | i, fuel + 1, _ =>
    match attemptOnce (attempts i) with
    | .ok body => ⟨some body, none, 1, 0⟩
    | .error e => afterFailure (doGetLoop attempts (i + 1) fuel (some e))

/-- Function `doGetWithRetry`: if `http.NewRequestWithContext` fails
(`reqErr`, deterministic in the context and URL, hence hoisted out of the
loop) the construction error is returned at once; otherwise up to 3 attempts
are made, `attempts i` giving the outcome of the i-th `client.Do`. -/
def doGetWithRetry (reqErr : Option String) (attempts : Nat → AttemptOutcome) : RetryResult :=
  match reqErr with
  | some e => ⟨none, some e, 0, 0⟩
  | none => doGetLoop attempts 0 3 none

/-! ## Source adapters -/

/-- The process environment: the values `os.Getenv` returns for the five
credential variables (`""` = not set). -/
structure Env where
  marketauxKey : String
  finnhubKey : String
  eodhdKey : String
  googleKey : String
  googleCseId : String
deriving DecidableEq, Repr

/-- One element of Marketaux's `data` array. -/
structure MarketauxItem where
  title : String
  description : String
  url : String
  source : String
  publishedAt : String
deriving DecidableEq, Repr

/-- Marketaux response envelope. -/
structure MarketauxResp where
  data : List MarketauxItem
deriving DecidableEq, Repr

/-- One element of Finnhub's response array. -/
structure FinnhubItem where
  headline : String
  source : String
  url : String
  datetime : Int
  summary : String
deriving DecidableEq, Repr

/-- One element of EODHD's response array. -/
structure EODHDItem where
  title : String
  url : String
  source : String
  pubDate : String
deriving DecidableEq, Repr

/-- One metatag object of a Google CSE item's pagemap. -/
structure GoogleMetatag where
  articlePublishedTime : String
deriving DecidableEq, Repr

/-- One element of Google CSE's `items` array. -/
structure GoogleItem where
  title : String
  snippet : String
  link : String
  displayLink : String
  pagemapMetatags : List GoogleMetatag
deriving DecidableEq, Repr

/-- Google CSE response envelope. -/
structure GoogleResp where
  items : List GoogleItem
deriving DecidableEq, Repr

/-- Marketaux record mapping: `time.Parse(time.RFC3339, item.PublishedAt)`;
on parse failure the record is kept with `t = time.Time\x7b\x7d`. -/
def marketauxArticles (parse : String → Option GoTime) (data : List MarketauxItem) :
    List NewsArticle :=
  data.map fun item =>
    { source := item.source
      title := item.title
      description := item.description
      url := item.url
      publishedAt := match parse item.publishedAt with
        | some t => t
        | none => GoTime.zeroTime }

/-- Finnhub record mapping: `time.Unix(item.Datetime, 0)`. -/
def finnhubArticles (items : List FinnhubItem) : List NewsArticle :=
  items.map fun item =>
    { source := item.source
      title := item.headline
      description := item.summary
      url := item.url
      publishedAt := GoTime.unix item.datetime }

/-- EODHD record mapping: description hard-coded empty; on timestamp parse
failure the record is kept with the zero time. -/
def eodhdArticles (parse : String → Option GoTime) (items : List EODHDItem) :
    List NewsArticle :=
  items.map fun item =>
    { source := item.source
      title := item.title
      description := ""
      url := item.url
      publishedAt := match parse item.pubDate with
        | some t => t
        | none => GoTime.zeroTime }

/-- Google CSE published-time extraction: first metatag's
`article:published_time` if present and parseable, else the zero time. -/
def googlePublishedAt (parse : String → Option GoTime) (item : GoogleItem) : GoTime :=
  match item.pagemapMetatags with
  | [] => GoTime.zeroTime
  | m :: _ =>
    if m.articlePublishedTime = "" then GoTime.zeroTime
    else
      match parse m.articlePublishedTime with
      | some t => t
      | none => GoTime.zeroTime

/-- Google CSE record mapping. -/
def googleArticles (parse : String → Option GoTime) (items : List GoogleItem) :
    List NewsArticle :=
  items.map fun item =>
    { source := item.displayLink
      title := item.title
      description := item.snippet
      url := item.link
      publishedAt := googlePublishedAt parse item }

/-- An adapter's observable result: the `([]NewsArticle, error)` pair, and
the `RetryResult` of the `doGetWithRetry` call when one was made (`none` =
the adapter returned before any network I/O). -/
abbrev FetchResult := Except String (List NewsArticle) × Option RetryResult

/-- Marketaux request URL. -/
def marketauxUrl (env : Env) (company : String) : String :=
  "https://api.marketaux.com/v1/news/all?filter_entities=true&entities="
    ++ company ++ "&api_token=" ++ env.marketauxKey

/-- Adapter `fetchFromMarketaux`: limit guard, credential guard, URL
construction, delegation to the resilient fetch, JSON decode, mapping. -/
def fetchFromMarketaux (env : Env) (doGet : String → RetryResult)
    (decode : String → Option MarketauxResp) (parse : String → Option GoTime)
    (company : String) (cfg : NewsPipelineConfig) : FetchResult :=
  if cfg.MarketauxLimit ≤ 0 then (.error "marketaux limit reached", none)
  else if env.marketauxKey = "" then (.error "MARKETAUX_API_KEY not set", none)
  else
    let r := doGet (marketauxUrl env company)
    match r.err with
    | some e => (.error e, some r)
    | none =>
      match decode (r.body.getD "") with
      | none => (.error "Marketaux JSON unmarshal failed", some r)
      | some resp => (.ok (marketauxArticles parse resp.data), some r)

/-- Finnhub request URL. -/
def finnhubUrl (env : Env) (fromDate toDate company : String) : String :=
  "https://finnhub.io/api/v1/company-news?symbol=" ++ company
    ++ "&from=" ++ fromDate ++ "&to=" ++ toDate ++ "&token=" ++ env.finnhubKey

/-- Adapter `fetchFromFinnhub`; `fromDate`/`toDate` are the formatted
`time.Now().AddDate(0,0,-3)` and `time.Now()` strings. -/
def fetchFromFinnhub (env : Env) (doGet : String → RetryResult)
    (decode : String → Option (List FinnhubItem)) (fromDate toDate : String)
    (company : String) (cfg : NewsPipelineConfig) : FetchResult :=
  if cfg.FinnhubLimit ≤ 0 then (.error "finnhub limit reached", none)
  else if env.finnhubKey = "" then (.error "FINNHUB_API_KEY not set", none)
  else
    let r := doGet (finnhubUrl env fromDate toDate company)
    match r.err with
    | some e => (.error e, some r)
    | none =>
      match decode (r.body.getD "") with
      | none => (.error "Finnhub JSON unmarshal failed", some r)
      | some items => (.ok (finnhubArticles items), some r)

/-- EODHD request URL. -/
def eodhdUrl (env : Env) (company : String) (limit : Int) : String :=
  "https://eodhistoricaldata.com/api/news?api_token=" ++ env.eodhdKey
    ++ "&symbols=" ++ company ++ "&period=d&limit=" ++ toString limit

/-- Adapter `fetchFromEODHD`. -/
def fetchFromEODHD (env : Env) (doGet : String → RetryResult)
    (decode : String → Option (List EODHDItem)) (parse : String → Option GoTime)
    (company : String) (cfg : NewsPipelineConfig) : FetchResult :=
  if cfg.EODHDLimit ≤ 0 then (.error "eodhd limit reached", none)
  else if env.eodhdKey = "" then (.error "EODHD_API_KEY not set", none)
  else
    let r := doGet (eodhdUrl env company cfg.EODHDLimit)
    match r.err with
    | some e => (.error e, some r)
    | none =>
      match decode (r.body.getD "") with
      | none => (.error "EODHD JSON unmarshal failed", some r)
      | some items => (.ok (eodhdArticles parse items), some r)

/-- Google CSE request URL. -/
def googleCseUrl (env : Env) (company : String) (limit : Int) : String :=
  "https://www.googleapis.com/customsearch/v1?q=" ++ company
    ++ "&cx=" ++ env.googleCseId ++ "&key=" ++ env.googleKey
    ++ "&num=" ++ toString limit ++ "&sort=date"

/-- Adapter `fetchFromGoogleCSE`: needs both the API key and the engine id. -/
def fetchFromGoogleCSE (env : Env) (doGet : String → RetryResult)
    (decode : String → Option GoogleResp) (parse : String → Option GoTime)
    (company : String) (cfg : NewsPipelineConfig) : FetchResult :=
  if cfg.GoogleCSELimit ≤ 0 then (.error "google cse limit reached", none)
  else if env.googleKey = "" ∨ env.googleCseId = "" then
    (.error "GOOGLE_CSE_API_KEY or GOOGLE_CSE_ID not set", none)
  else
    let r := doGet (googleCseUrl env company cfg.GoogleCSELimit)
    match r.err with
    | some e => (.error e, some r)
    | none =>
      match decode (r.body.getD "") with
      | none => (.error "Google CSE JSON unmarshal failed", some r)
      | some resp => (.ok (googleArticles parse resp.items), some r)

/-! ## Orchestrator: `RunNewsPipeline` -/

/-- One entry of the anonymous `fetchers` slice in `RunNewsPipeline`:
display name, `use`/`skip` flags and the per-source limit. The fetch
function itself is modelled by the `outcome` parameter of `runFetchers`,
keyed by the entry's name (the four names are distinct). -/
structure FetcherEntry where
  name : String
  use : Bool
  skip : Bool
  limit : Int
deriving DecidableEq, Repr

/-- The spec's participation predicate: `enabled && !skip && limit > 0`. -/
def participatesB (f : FetcherEntry) : Bool :=
  f.use && !f.skip && decide (0 < f.limit)

/-- The `fetchers` slice built from the cloned config, in declared order. -/
def fetchers (cfg : NewsPipelineConfig) : List FetcherEntry :=
  [⟨"Marketaux", cfg.UseMarketaux, cfg.SkipMarketaux, cfg.MarketauxLimit⟩,
   ⟨"Finnhub", cfg.UseFinnhub, cfg.SkipFinnhub, cfg.FinnhubLimit⟩,
   ⟨"EODHD", cfg.UseEODHD, cfg.SkipEODHD, cfg.EODHDLimit⟩,
   ⟨"GoogleCSE", cfg.UseGoogleCSE, cfg.SkipGoogleCSE, cfg.GoogleCSELimit⟩]

/-- The shared accumulators of a pipeline run: the article accumulator, the
source-tagged error list (`fmt.Errorf("%s: %w", name, err)` kept as a
(name, message) pair), and the sources for which `newsFetchCount` was
incremented (one increment per dispatched goroutine). -/
structure RunState where
  articles : List NewsArticle
  errs : List (String × String)
  attempts : List String
deriving DecidableEq, Repr

/-- The fan-out/fan-in of `RunNewsPipeline` over one fetcher list: an entry
failing `use`/`skip`/`limit` is skipped (no metric, no goroutine); a
dispatched entry records an attempt and then, under the mutex, either
appends its articles or its tagged error. `outcome name` is the
`([]NewsArticle, error)` the entry's fetch call returns; the declared
order stands in for one completion order of the goroutines. -/
def runFetchers (outcome : String → Except String (List NewsArticle)) :
    List FetcherEntry → RunState
  | [] => ⟨[], [], []⟩
  | f :: rest =>
    if !f.use || f.skip || decide (f.limit ≤ 0) then runFetchers outcome rest
    else
      let s := runFetchers outcome rest
      match outcome f.name with
      | .ok arts => ⟨arts ++ s.articles, s.errs, f.name :: s.attempts⟩
      | .error e => ⟨s.articles, (f.name, e) :: s.errs, f.name :: s.attempts⟩

/-- Model of `errors.Join(errs...)`: `nil` on an empty list, otherwise an
error whose message joins the per-source messages with newlines. -/
def joinErrors (errs : List (String × String)) : Option String :=
  match errs with
  | [] => none
  | _ :: _ => some (String.intercalate "\n" (errs.map fun e => e.1 ++ ": " ++ e.2))

/-- Function `RunNewsPipeline`: dispatch every participating fetcher, wait,
deduplicate the accumulated articles, and pair them with the joined error. -/
def RunNewsPipeline (hash : String → String)
    (outcome : String → Except String (List NewsArticle))
    (cfg : NewsPipelineConfig) : List NewsArticle × Option String :=
  let s := runFetchers outcome (fetchers cfg)
  (deduplicateArticles hash s.articles, joinErrors s.errs)

/-! ## Concrete fixtures (used by witnesses) -/

/-- An adapter result rejected on configuration grounds: an error with no
`doGetWithRetry` call recorded. -/
def configRejected (x : FetchResult) : Prop :=
  (∃ e, x.1 = Except.error e) ∧ x.2 = none

/-- Fixture article. -/
def wA : NewsArticle := ⟨"s1", "T1", "d1", "u1", GoTime.zeroTime⟩

/-- Fixture article sharing URL and title with `wA`, different description. -/
def wB : NewsArticle := ⟨"s2", "T1", "d2", "u1", GoTime.zeroTime⟩

/-- Fixture article sharing the title of `wA` only. -/
def wC : NewsArticle := ⟨"s3", "T1", "d3", "u2", GoTime.zeroTime⟩

/-- Fixture article sharing the URL of `wA` only. -/
def wD : NewsArticle := ⟨"s4", "T2", "d4", "u1", GoTime.zeroTime⟩

/-- Fixture config: all sources enabled, none skipped, all limits 10. -/
def wCfg : NewsPipelineConfig :=
  ⟨true, true, 10, true, 10, true, 10, true, 10, false, false, false, false⟩

/-- Fixture config: Marketaux skipped, Finnhub disabled, EODHD limit 0,
Google CSE participating. -/
def wCfgSkip : NewsPipelineConfig :=
  ⟨true, true, 10, false, 10, true, 0, true, 10, true, false, false, false⟩

/-- Fixture fetch outcomes: Finnhub fails, everyone else returns `[wA]`. -/
def wOutcome : String → Except String (List NewsArticle) :=
  fun name => if name = "Finnhub" then .error "boom" else .ok [wA]

/-- Fixture environment with no credentials set. -/
def wEnvEmpty : Env := ⟨"", "", "", "", ""⟩

/-- Fixture environment with every credential set. -/
def wEnvKeys : Env := ⟨"k1", "k2", "k3", "k4", "k5"⟩

/-- Fixture resilient-fetch collaborator: one successful call. -/
def wDoGet : String → RetryResult := fun _ => ⟨some "BODY", none, 1, 0⟩

/-- Fixture Marketaux item with an unparseable timestamp. -/
def wMItem : MarketauxItem := ⟨"Title", "Desc", "u9", "Src", "not-a-time"⟩

/-- Fixture EODHD item with an unparseable timestamp. -/
def wEItem : EODHDItem := ⟨"Title", "u8", "Src", "bad"⟩

/-- Fixture timestamp parser that always fails. -/
def wParseFail : String → Option GoTime := fun _ => none

/-- Fixture Marketaux decoder returning one item. -/
def wDecodeM : String → Option MarketauxResp := fun _ => some ⟨[wMItem]⟩

/-! ## Helper lemmas -/

theorem string_append_cancel_right {a b c : String} (h : a ++ c = b ++ c) : a = b := by
  have hd : a.data ++ c.data = b.data ++ c.data := by
    simpa [String.data_append] using congrArg String.data h
  exact String.ext (List.append_cancel_right hd)

theorem string_append_cancel_left {a b c : String} (h : c ++ a = c ++ b) : a = b := by
  have hd : c.data ++ a.data = c.data ++ b.data := by
    simpa [String.data_append] using congrArg String.data h
  exact String.ext (List.append_cancel_left hd)

theorem dedupLoop_sublist (hash : String → String) :
    ∀ (l : List NewsArticle) (seen : List String), (dedupLoop hash l seen).Sublist l := by
  intro l
  induction l with
  | nil => intro seen; simp [dedupLoop]
  | cons a rest ih =>
    intro seen
    by_cases hmem : dedupKey hash a ∈ seen
    · simpa [dedupLoop, hmem] using (ih seen).cons a
    · simpa [dedupLoop, hmem] using (ih (dedupKey hash a :: seen)).cons₂ a

theorem dedupLoop_keys_nodup (hash : String → String) :
    ∀ (l : List NewsArticle) (seen : List String),
      ((dedupLoop hash l seen).map (dedupKey hash)).Nodup ∧
      ∀ a ∈ dedupLoop hash l seen, dedupKey hash a ∉ seen := by
  intro l
  induction l with
  | nil => intro seen; simp [dedupLoop]
  | cons a rest ih =>
    intro seen
    by_cases hmem : dedupKey hash a ∈ seen
    · constructor
      · simpa [dedupLoop, hmem] using (ih seen).1
      · simpa [dedupLoop, hmem] using (ih seen).2
    · have ih' := ih (dedupKey hash a :: seen)
      constructor
      · simp only [dedupLoop, hmem, if_false, List.map_cons, List.nodup_cons]
        refine ⟨?_, ih'.1⟩
        intro hcon
        rcases List.mem_map.mp hcon with ⟨b, hb, hkey⟩
        exact (ih'.2 b hb) (by simp [hkey])
      · intro b hb
        simp only [dedupLoop, hmem, if_false, List.mem_cons] at hb
        rcases hb with rfl | hb
        · exact hmem
        · have := ih'.2 b hb
          intro hseen
          exact this (List.mem_cons_of_mem _ hseen)

theorem dedupLoop_fixed (hash : String → String) :
    ∀ (l : List NewsArticle) (seen : List String),
      ((l.map (dedupKey hash)).Nodup) →
      (∀ a ∈ l, dedupKey hash a ∉ seen) →
      dedupLoop hash l seen = l := by
  intro l
  induction l with
  | nil => intro seen _ _; simp [dedupLoop]
  | cons a rest ih =>
    intro seen hnd hfresh
    have hmem : dedupKey hash a ∉ seen := hfresh a (List.mem_cons_self a rest)
    simp only [List.map_cons, List.nodup_cons] at hnd
    have hrest : dedupLoop hash rest (dedupKey hash a :: seen) = rest := by
      refine ih _ hnd.2 ?_
      intro b hb
      simp only [List.mem_cons, not_or]
      refine ⟨?_, hfresh b (List.mem_cons_of_mem _ hb)⟩
      intro hkey
      exact hnd.1 (hkey ▸ List.mem_map_of_mem (dedupKey hash) hb)
    simp [dedupLoop, hmem, hrest]

theorem dedupLoop_eq_firstOccurrences (hash : String → String) :
    ∀ (n : Nat) (l : List NewsArticle) (seen : List String), l.length ≤ n →
      dedupLoop hash l seen =
        firstOccurrences hash (l.filter fun a => decide (dedupKey hash a ∉ seen)) := by
  intro n
  induction n with
  | zero =>
    intro l seen hlen
    have : l = [] := List.length_eq_zero.mp (Nat.le_zero.mp hlen)
    subst this
    simp [dedupLoop, firstOccurrences]
  | succ n ih =>
    intro l seen hlen
    cases l with
    | nil => simp [dedupLoop, firstOccurrences]
    | cons a rest =>
      simp only [List.length_cons, Nat.succ_le_succ_iff] at hlen
      by_cases hmem : dedupKey hash a ∈ seen
      · have : (List.filter (fun a => decide (dedupKey hash a ∉ seen)) (a :: rest)) =
            rest.filter fun a => decide (dedupKey hash a ∉ seen) := by
          simp [List.filter_cons, hmem]
        rw [this]
        simpa [dedupLoop, hmem] using ih rest seen hlen
      · have hcons : (List.filter (fun a => decide (dedupKey hash a ∉ seen)) (a :: rest)) =
            a :: (rest.filter fun a => decide (dedupKey hash a ∉ seen)) := by
          simp [List.filter_cons, hmem]
        rw [hcons]
        rw [firstOccurrences]
        have hloop := ih rest (dedupKey hash a :: seen) hlen
        have hfilter :
            (rest.filter fun b => decide (dedupKey hash b ∉ dedupKey hash a :: seen)) =
            ((rest.filter fun b => decide (dedupKey hash b ∉ seen)).filter
              fun b => dedupKey hash b != dedupKey hash a) := by
          rw [List.filter_filter]
          apply List.filter_congr
          intro b _
          by_cases h1 : dedupKey hash b = dedupKey hash a <;>
            by_cases h2 : dedupKey hash b ∈ seen <;> simp [h1, h2]
        simp only [dedupLoop, hmem, if_false]
        rw [hloop, hfilter]

theorem doGetLoop_ok (attempts : Nat → AttemptOutcome) (i fuel : Nat)
    (lastErr : Option String) (b : String) (h : attemptOnce (attempts i) = .ok b) :
    doGetLoop attempts i (fuel + 1) lastErr = ⟨some b, none, 1, 0⟩ := by
  simp [doGetLoop, h]

theorem doGetLoop_err (attempts : Nat → AttemptOutcome) (i fuel : Nat)
    (lastErr : Option String) (e : String) (h : attemptOnce (attempts i) = .error e) :
    doGetLoop attempts i (fuel + 1) lastErr =
      afterFailure (doGetLoop attempts (i + 1) fuel (some e)) := by
  simp [doGetLoop, h]

theorem doGetLoop_calls_le (attempts : Nat → AttemptOutcome) :
    ∀ (fuel i : Nat) (lastErr : Option String),
      (doGetLoop attempts i fuel lastErr).calls ≤ fuel := by
  intro fuel
  induction fuel with
  | zero => intro i lastErr; simp [doGetLoop]
  | succ n ih =>
    intro i lastErr
    cases h : attemptOnce (attempts i) with
    | ok b => rw [doGetLoop_ok attempts i n lastErr b h]; simp
    | error e =>
      rw [doGetLoop_err attempts i n lastErr e h]
      exact Nat.succ_le_succ (ih (i + 1) (some e))

theorem skip_guard_eq_not_participatesB (f : FetcherEntry) :
    (!f.use || f.skip || decide (f.limit ≤ 0)) = !participatesB f := by
  cases hu : f.use <;> cases hs : f.skip <;>
    by_cases hl : f.limit ≤ 0 <;>
      simp [participatesB, hu, hs, hl, decide_eq_true_eq, Int.not_lt] <;> omega

theorem runFetchers_contributions (outcome : String → Except String (List NewsArticle)) :
    ∀ (l : List FetcherEntry) (f : FetcherEntry), f ∈ l → participatesB f = true →
      (∀ arts, outcome f.name = .ok arts → ∀ a ∈ arts, a ∈ (runFetchers outcome l).articles) ∧
      (∀ e, outcome f.name = .error e → (f.name, e) ∈ (runFetchers outcome l).errs) := by
  intro l
  induction l with
  | nil => intro f hf; cases hf
  | cons g rest ih =>
    intro f hf hpart
    have hstep : ∀ (s : RunState),
        runFetchers outcome (g :: rest) = s →
        (runFetchers outcome rest).articles.Sublist s.articles ∧
        (runFetchers outcome rest).errs.Sublist s.errs := by
      intro s hs
      by_cases hg : (!g.use || g.skip || decide (g.limit ≤ 0)) = true
      · subst hs; simp only [runFetchers, hg, if_true]
        exact ⟨List.Sublist.refl _, List.Sublist.refl _⟩
      · subst hs
        simp only [runFetchers, hg, if_false]
        cases houtg : outcome g.name with
        | ok arts => exact ⟨List.sublist_append_right _ _, List.Sublist.refl _⟩
        | error e => exact ⟨List.Sublist.refl _, List.sublist_cons_self _ _⟩
    rcases List.mem_cons.mp hf with rfl | hmem
    · have hg : (!f.use || f.skip || decide (f.limit ≤ 0)) = false := by
        rw [skip_guard_eq_not_participatesB, hpart]; rfl
      constructor
      · intro arts hout a ha
        simp only [runFetchers, hg, Bool.false_eq_true, if_false, hout]
        exact List.mem_append_left _ ha
      · intro e hout
        simp only [runFetchers, hg, Bool.false_eq_true, if_false, hout]
        exact List.mem_cons_self _ _
    · have ihf := ih f hmem hpart
      have hsub := hstep (runFetchers outcome (g :: rest)) rfl
      constructor
      · intro arts hout a ha
        exact hsub.1.mem (ihf.1 arts hout a ha)
      · intro e hout
        exact hsub.2.mem (ihf.2 e hout)

theorem runFetchers_attempts (outcome : String → Except String (List NewsArticle)) :
    ∀ (l : List FetcherEntry),
      (runFetchers outcome l).attempts = (l.filter participatesB).map FetcherEntry.name := by
  intro l
  induction l with
  | nil => simp [runFetchers]
  | cons f rest ih =>
    by_cases hp : participatesB f = true
    · have hg : (!f.use || f.skip || decide (f.limit ≤ 0)) = false := by
        rw [skip_guard_eq_not_participatesB, hp]; rfl
      cases hout : outcome f.name with
      | ok arts => simp [runFetchers, hg, hout, List.filter_cons, hp, ih]
      | error e => simp [runFetchers, hg, hout, List.filter_cons, hp, ih]
    · have hp' : participatesB f = false := by
        cases h : participatesB f
        · rfl
        · exact absurd h hp
      have hg : (!f.use || f.skip || decide (f.limit ≤ 0)) = true := by
        rw [skip_guard_eq_not_participatesB, hp']; rfl
      simp [runFetchers, hg, List.filter_cons, hp', ih]

theorem runFetchers_errs_from_participants (outcome : String → Except String (List NewsArticle)) :
    ∀ (l : List FetcherEntry) (e : String × String), e ∈ (runFetchers outcome l).errs →
      ∃ f ∈ l, participatesB f = true ∧ e.1 = f.name := by
  intro l
  induction l with
  | nil => intro e he; simp [runFetchers] at he
  | cons f rest ih =>
    intro e he
    by_cases hp : participatesB f = true
    · have hg : (!f.use || f.skip || decide (f.limit ≤ 0)) = false := by
        rw [skip_guard_eq_not_participatesB, hp]; rfl
      cases hout : outcome f.name with
      | ok arts =>
        simp only [runFetchers, hg, Bool.false_eq_true, if_false, hout] at he
        rcases ih e he with ⟨g, hg', hgp, hge⟩
        exact ⟨g, List.mem_cons_of_mem _ hg', hgp, hge⟩
      | error err =>
        simp only [runFetchers, hg, Bool.false_eq_true, if_false, hout, List.mem_cons] at he
        rcases he with rfl | he
        · exact ⟨f, List.mem_cons_self _ _, hp, rfl⟩
        · rcases ih e he with ⟨g, hg', hgp, hge⟩
          exact ⟨g, List.mem_cons_of_mem _ hg', hgp, hge⟩
    · have hp' : participatesB f = false := by
        cases h : participatesB f
        · rfl
        · exact absurd h hp
      have hg : (!f.use || f.skip || decide (f.limit ≤ 0)) = true := by
        rw [skip_guard_eq_not_participatesB, hp']; rfl
      simp only [runFetchers, hg, if_true] at he
      rcases ih e he with ⟨g, hg', hgp, hge⟩
      exact ⟨g, List.mem_cons_of_mem _ hg', hgp, hge⟩

theorem runFetchers_drop_nonparticipant (outcome : String → Except String (List NewsArticle)) :
    ∀ (l1 l2 : List FetcherEntry) (f : FetcherEntry), participatesB f = false →
      runFetchers outcome (l1 ++ f :: l2) = runFetchers outcome (l1 ++ l2) := by
  intro l1
  induction l1 with
  | nil =>
    intro l2 f hp
    have hg : (!f.use || f.skip || decide (f.limit ≤ 0)) = true := by
      rw [skip_guard_eq_not_participatesB, hp]; rfl
    simp [runFetchers, hg]
  | cons g rest ih =>
    intro l2 f hp
    simp only [List.cons_append, runFetchers, List.append_eq]
    rw [ih l2 f hp]

theorem fetchers_same_name (cfg : NewsPipelineConfig) {f g : FetcherEntry}
    (hf : f ∈ fetchers cfg) (hg : g ∈ fetchers cfg) (hn : g.name = f.name) : g = f := by
  simp only [fetchers, List.mem_cons, List.not_mem_nil, or_false] at hf hg
  rcases hf with rfl | rfl | rfl | rfl <;> rcases hg with rfl | rfl | rfl | rfl <;>
    first
      | rfl
      | simp at hn

/-! ## Claims -/

/-- Claim C1: in every run of `RunNewsPipeline`, partial failure never
suppresses partial success — every participating source contributes its
articles (on success) or a source-name-tagged error (on failure) to the
aggregate, articles of every succeeding source appear in the accumulated
pre-deduplication list, and the composite error is nil iff the per-source
error list is empty. -/
theorem claim_failure_isolation (hash : String → String)
    (outcome : String → Except String (List NewsArticle)) (cfg : NewsPipelineConfig) :
    (∀ f ∈ fetchers cfg, participatesB f = true →
      (∀ arts, outcome f.name = .ok arts →
        ∀ a ∈ arts, a ∈ (runFetchers outcome (fetchers cfg)).articles) ∧
      (∀ e, outcome f.name = .error e →
        (f.name, e) ∈ (runFetchers outcome (fetchers cfg)).errs)) ∧
    ((RunNewsPipeline hash outcome cfg).2 = none ↔
      (runFetchers outcome (fetchers cfg)).errs = []) := by
  constructor
  · intro f hf hp
    exact runFetchers_contributions outcome (fetchers cfg) f hf hp
  · show joinErrors (runFetchers outcome (fetchers cfg)).errs = none ↔ _
    cases h : (runFetchers outcome (fetchers cfg)).errs with
    | nil => simp [joinErrors]
    | cons x xs => simp [joinErrors]

/-- Witness for C1 at a concrete run: all four sources enabled, Finnhub
failing with "boom", the rest returning `[wA]`. -/
theorem claim_failure_isolation_witness :
    wA ∈ (runFetchers wOutcome (fetchers wCfg)).articles ∧
    ("Finnhub", "boom") ∈ (runFetchers wOutcome (fetchers wCfg)).errs ∧
    ((RunNewsPipeline id wOutcome wCfg).2 = none ↔
      (runFetchers wOutcome (fetchers wCfg)).errs = []) := by
  have h := claim_failure_isolation id wOutcome wCfg
  refine ⟨?_, ?_, h.2⟩
  · exact (h.1 ⟨"Marketaux", true, false, 10⟩ (by decide) (by decide)).1
      [wA] rfl wA (List.mem_singleton.mpr rfl)
  · exact (h.1 ⟨"Finnhub", true, false, 10⟩ (by decide) (by decide)).2 "boom" rfl

/-- Claim C2: two records collapse under deduplication exactly when both the
URL and the title agree — same URL and same title leaves one survivor; same
title with different URLs leaves both; same URL with different titles leaves
both (the abstract title digest taken injective, matching SHA-1 treated as
collision-free); and no two survivors of any run share a deduplication key. -/
theorem claim_dedup_collapse_iff_url_and_title (hash : String → String) (a b : NewsArticle) :
    (a.url = b.url → a.title = b.title → deduplicateArticles hash [a, b] = [a]) ∧
    (a.title = b.title → a.url ≠ b.url → deduplicateArticles hash [a, b] = [a, b]) ∧
    (Function.Injective hash → a.url = b.url → a.title ≠ b.title →
      deduplicateArticles hash [a, b] = [a, b]) ∧
    ∀ l : List NewsArticle, ((deduplicateArticles hash l).map (dedupKey hash)).Nodup := by
  refine ⟨?_, ?_, ?_, ?_⟩
  · intro hu ht
    have hkey : dedupKey hash b = dedupKey hash a := by
      simp only [dedupKey, hu, ht]
    simp [deduplicateArticles, dedupLoop, hkey]
  · intro ht hu
    have hkey : dedupKey hash b ≠ dedupKey hash a := by
      intro h
      simp only [dedupKey] at h
      rw [show hash b.title = hash a.title by rw [ht]] at h
      exact hu (string_append_cancel_right (string_append_cancel_right h)).symm
    simp [deduplicateArticles, dedupLoop, hkey]
  · intro hinj hu ht
    have hkey : dedupKey hash b ≠ dedupKey hash a := by
      intro h
      simp only [dedupKey, ← hu] at h
      have := string_append_cancel_left (c := a.url ++ "_") (by
        simpa [String.append_assoc] using h)
      exact ht (hinj this).symm
    simp [deduplicateArticles, dedupLoop, hkey]
  · intro l
    exact (dedupLoop_keys_nodup hash l []).1

/-- Witness for C2 on concrete records (digest = identity, injective):
`wA`/`wB` share URL and title (one survivor); `wA`/`wC` share only the
title (both survive); `wA`/`wD` share only the URL (both survive). -/
theorem claim_dedup_collapse_iff_url_and_title_witness :
    deduplicateArticles id [wA, wB] = [wA] ∧
    deduplicateArticles id [wA, wC] = [wA, wC] ∧
    deduplicateArticles id [wA, wD] = [wA, wD] := by
  refine ⟨?_, ?_, ?_⟩
  · exact (claim_dedup_collapse_iff_url_and_title id wA wB).1 rfl rfl
  · exact (claim_dedup_collapse_iff_url_and_title id wA wC).2.1 rfl (by decide)
  · exact (claim_dedup_collapse_iff_url_and_title id wA wD).2.2.1
      (fun x y h => h) rfl (by decide)

/-- Claim C3: a source participates in a `RunNewsPipeline` run iff
`enabled && !skip && limit > 0` (the in-loop skip guard is exactly the
negation of that predicate); the recorded fetch attempts are exactly the
participating entries' names, a non-participating source's name appears in
no attempt and no error tag, and removing a non-participating entry leaves
the whole run state unchanged (no articles, errors or attempts from it). -/
theorem claim_participation_criterion (outcome : String → Except String (List NewsArticle))
    (cfg : NewsPipelineConfig) :
    (∀ f : FetcherEntry, (!f.use || f.skip || decide (f.limit ≤ 0)) = !participatesB f) ∧
    ((runFetchers outcome (fetchers cfg)).attempts =
      ((fetchers cfg).filter participatesB).map FetcherEntry.name) ∧
    (∀ f ∈ fetchers cfg, participatesB f = false →
      f.name ∉ (runFetchers outcome (fetchers cfg)).attempts ∧
      ∀ e ∈ (runFetchers outcome (fetchers cfg)).errs, e.1 ≠ f.name) ∧
    (∀ (l1 l2 : List FetcherEntry) (f : FetcherEntry), participatesB f = false →
      runFetchers outcome (l1 ++ f :: l2) = runFetchers outcome (l1 ++ l2)) := by
  refine ⟨skip_guard_eq_not_participatesB, runFetchers_attempts outcome (fetchers cfg), ?_, ?_⟩
  · intro f hf hp
    constructor
    · intro hmem
      rw [runFetchers_attempts] at hmem
      rcases List.mem_map.mp hmem with ⟨g, hgmem, hgname⟩
      rcases List.mem_filter.mp hgmem with ⟨hgl, hgp⟩
      have hfg : f = g := fetchers_same_name cfg hgl hf hgname.symm
      rw [← hfg, hp] at hgp
      cases hgp
    · intro e he heq
      rcases runFetchers_errs_from_participants outcome (fetchers cfg) e he with
        ⟨g, hgl, hgp, hge⟩
      have hgn : f.name = g.name := by rw [← hge, heq]
      have hfg : f = g := fetchers_same_name cfg hgl hf hgn
      rw [← hfg, hp] at hgp
      cases hgp
  · intro l1 l2 f hp
    exact runFetchers_drop_nonparticipant outcome l1 l2 f hp

/-- Witness for C3 at a concrete config: Marketaux skipped via `skip`,
EODHD excluded via `limit = 0`; neither is invoked. -/
theorem claim_participation_criterion_witness :
    "Marketaux" ∉ (runFetchers wOutcome (fetchers wCfgSkip)).attempts ∧
    "EODHD" ∉ (runFetchers wOutcome (fetchers wCfgSkip)).attempts ∧
    (runFetchers wOutcome (fetchers wCfgSkip)).attempts =
      ((fetchers wCfgSkip).filter participatesB).map FetcherEntry.name := by
  have h := claim_participation_criterion wOutcome wCfgSkip
  refine ⟨?_, ?_, h.2.1⟩
  · exact (h.2.2.1 ⟨"Marketaux", true, true, 10⟩ (by decide) (by decide)).1
  · exact (h.2.2.1 ⟨"EODHD", true, false, 0⟩ (by decide) (by decide)).1

/-- Claim C4: when the request can be constructed, `doGetWithRetry` makes at
most 3 `client.Do` attempts (at most 3 in every case, through the
construction-failure path included), and if every attempt fails it makes
exactly 3 attempts and returns the error produced by the final (third)
attempt. -/
theorem claim_retry_exhaustion (attempts : Nat → AttemptOutcome) :
    (∀ reqErr, (doGetWithRetry reqErr attempts).calls ≤ 3) ∧
    ((∀ i, i < 3 → ∃ e, attemptOnce (attempts i) = .error e) →
      (doGetWithRetry none attempts).calls = 3 ∧
      ∃ e, attemptOnce (attempts 2) = .error e ∧
        (doGetWithRetry none attempts).err = some e) := by
  constructor
  · intro reqErr
    cases reqErr with
    | some e => simp [doGetWithRetry]
    | none => exact doGetLoop_calls_le attempts 3 0 none
  · intro hfail
    obtain ⟨e0, h0⟩ := hfail 0 (by omega)
    obtain ⟨e1, h1⟩ := hfail 1 (by omega)
    obtain ⟨e2, h2⟩ := hfail 2 (by omega)
    have hrun : doGetWithRetry none attempts = ⟨none, some e2, 3, 3⟩ := by
      show doGetLoop attempts 0 3 none = _
      rw [show (3 : Nat) = 2 + 1 from rfl, doGetLoop_err attempts 0 2 none e0 h0]
      rw [show (2 : Nat) = 1 + 1 from rfl, doGetLoop_err attempts 1 1 (some e0) e1 h1]
      rw [show (1 : Nat) = 0 + 1 from rfl, doGetLoop_err attempts 2 0 (some e1) e2 h2]
      rfl
    exact ⟨by rw [hrun], e2, h2, by rw [hrun]⟩

/-- Witness for C4: a transport error on every attempt yields exactly 3
calls and the final attempt's error. -/
theorem claim_retry_exhaustion_witness :
    (doGetWithRetry none fun _ => AttemptOutcome.transport "boom").calls = 3 ∧
    (doGetWithRetry none fun _ => AttemptOutcome.transport "boom").err = some "boom" := by
  have h := (claim_retry_exhaustion fun _ => AttemptOutcome.transport "boom").2
    (by intro i _; exact ⟨"boom", rfl⟩)
  rcases h with ⟨hc, e, he, herr⟩
  have heb : e = "boom" := by
    have : Except.error (ε := String) (α := String) e = Except.error "boom" := he.symm
    exact (Except.error.injEq _ _).mp this
  exact ⟨hc, by rw [herr, heb]⟩

/-- Counterexample to C5 as stated: 201 is a 2xx status, yet a response with
status 201 is treated as a failed attempt — with every attempt returning
status 201, `doGetWithRetry` retries (3 calls, 3 sleeps) and returns an
error instead of returning the body as success with no retry. -/
theorem claim_success_criterion_counterexample :
    200 ≤ 201 ∧ 201 < 300 ∧
    (doGetWithRetry none fun _ => AttemptOutcome.response 201 "x" none).body = none ∧
    (doGetWithRetry none fun _ => AttemptOutcome.response 201 "x" none).calls = 3 ∧
    (doGetWithRetry none fun _ => AttemptOutcome.response 201 "x" none).sleeps = 3 ∧
    attemptOnce (AttemptOutcome.response 201 "x" none) = .error "status 201: x" := by
  refine ⟨by omega, by omega, ?_, ?_, ?_, ?_⟩ <;> rfl

/-- Claim C5 (amended): an attempt succeeds iff the response status is
exactly 200 (`http.StatusOK`) and the body read succeeds; any other status,
a transport error, or a body-read error is a failed attempt; a first attempt
with status exactly 200 and readable body returns that body immediately with
one call and no retry delay. -/
theorem claim_success_criterion (attempts : Nat → AttemptOutcome) :
    (∀ o : AttemptOutcome,
      (∃ b, attemptOnce o = .ok b) ↔ ∃ b, o = .response 200 b none) ∧
    (∀ b, attemptOnce (attempts 0) = .ok b →
      doGetWithRetry none attempts = ⟨some b, none, 1, 0⟩) := by
  constructor
  · intro o
    constructor
    · intro ⟨b, hb⟩
      cases o with
      | transport e => simp [attemptOnce] at hb
      | response status body readErr =>
        by_cases hs : status = 200
        · subst hs
          cases readErr with
          | none =>
            refine ⟨body, ?_⟩
            simp [attemptOnce] at hb
            rw [hb]
          | some e => simp [attemptOnce] at hb
        · simp [attemptOnce, hs] at hb
    · intro ⟨b, hb⟩
      subst hb
      exact ⟨b, by simp [attemptOnce]⟩
  · intro b hb
    show doGetLoop attempts 0 3 none = _
    rw [show (3 : Nat) = 2 + 1 from rfl, doGetLoop_ok attempts 0 2 none b hb]

/-- Witness for C5 (amended): a first attempt with status 200 and a clean
body read returns the body at once. -/
theorem claim_success_criterion_witness :
    doGetWithRetry none (fun _ => AttemptOutcome.response 200 "payload" none) =
      ⟨some "payload", none, 1, 0⟩ := by
  exact (claim_success_criterion fun _ => AttemptOutcome.response 200 "payload" none).2
    "payload" rfl

/-- Claim C6: in all four adapters, a non-positive per-source limit or a
missing required credential yields an immediate error with no
`doGetWithRetry` call (hence no network I/O and no retries). -/
theorem claim_config_errors_precede_io (env : Env) (doGet : String → RetryResult)
    (dm : String → Option MarketauxResp) (df : String → Option (List FinnhubItem))
    (de : String → Option (List EODHDItem)) (dg : String → Option GoogleResp)
    (parse : String → Option GoTime) (fromDate toDate company : String)
    (cfg : NewsPipelineConfig) :
    (cfg.MarketauxLimit ≤ 0 ∨ env.marketauxKey = "" →
      configRejected (fetchFromMarketaux env doGet dm parse company cfg)) ∧
    (cfg.FinnhubLimit ≤ 0 ∨ env.finnhubKey = "" →
      configRejected (fetchFromFinnhub env doGet df fromDate toDate company cfg)) ∧
    (cfg.EODHDLimit ≤ 0 ∨ env.eodhdKey = "" →
      configRejected (fetchFromEODHD env doGet de parse company cfg)) ∧
    (cfg.GoogleCSELimit ≤ 0 ∨ env.googleKey = "" ∨ env.googleCseId = "" →
      configRejected (fetchFromGoogleCSE env doGet dg parse company cfg)) := by
  refine ⟨?_, ?_, ?_, ?_⟩ <;> intro hc
  · by_cases hl : cfg.MarketauxLimit ≤ 0
    · simp [configRejected, fetchFromMarketaux, hl]
    · rcases hc with hc | hc
      · exact absurd hc hl
      · simp [configRejected, fetchFromMarketaux, hl, hc]
  · by_cases hl : cfg.FinnhubLimit ≤ 0
    · simp [configRejected, fetchFromFinnhub, hl]
    · rcases hc with hc | hc
      · exact absurd hc hl
      · simp [configRejected, fetchFromFinnhub, hl, hc]
  · by_cases hl : cfg.EODHDLimit ≤ 0
    · simp [configRejected, fetchFromEODHD, hl]
    · rcases hc with hc | hc
      · exact absurd hc hl
      · simp [configRejected, fetchFromEODHD, hl, hc]
  · by_cases hl : cfg.GoogleCSELimit ≤ 0
    · simp [configRejected, fetchFromGoogleCSE, hl]
    · rcases hc with hc | hc
      · exact absurd hc hl
      · simp [configRejected, fetchFromGoogleCSE, hl, hc]

/-- Witness for C6: with every credential unset and limits positive, each of
the four adapters rejects before any I/O. -/
theorem claim_config_errors_precede_io_witness :
    configRejected (fetchFromMarketaux wEnvEmpty wDoGet (fun _ => none) wParseFail
      "ACME" wCfg) ∧
    configRejected (fetchFromFinnhub wEnvEmpty wDoGet (fun _ => none) "2024-01-01"
      "2024-01-04" "ACME" wCfg) ∧
    configRejected (fetchFromEODHD wEnvEmpty wDoGet (fun _ => none) wParseFail
      "ACME" wCfg) ∧
    configRejected (fetchFromGoogleCSE wEnvEmpty wDoGet (fun _ => none) wParseFail
      "ACME" wCfg) := by
  have h := claim_config_errors_precede_io wEnvEmpty wDoGet (fun _ => none)
    (fun _ => none) (fun _ => none) (fun _ => none) wParseFail
    "2024-01-01" "2024-01-04" "ACME" wCfg
  exact ⟨h.1 (Or.inr rfl), h.2.1 (Or.inr rfl), h.2.2.1 (Or.inr rfl),
    h.2.2.2 (Or.inr (Or.inl rfl))⟩

/-- Claim C7: deduplication output is a subsequence of the input and equals
the spec-side first-occurrence filter, so each survivor is the first
occurrence of its key and relative order is preserved. -/
theorem claim_dedup_order_preservation (hash : String → String) (l : List NewsArticle) :
    (deduplicateArticles hash l).Sublist l ∧
    deduplicateArticles hash l = firstOccurrences hash l := by
  refine ⟨dedupLoop_sublist hash l [], ?_⟩
  have h := dedupLoop_eq_firstOccurrences hash l.length l [] le_rfl
  simpa [deduplicateArticles] using h

/-- Claim C8: `deduplicateArticles` is idempotent. -/
theorem claim_dedup_idempotent (hash : String → String) (l : List NewsArticle) :
    deduplicateArticles hash (deduplicateArticles hash l) = deduplicateArticles hash l := by
  have hnd := (dedupLoop_keys_nodup hash l []).1
  show dedupLoop hash (dedupLoop hash l []) [] = dedupLoop hash l []
  exact dedupLoop_fixed hash (dedupLoop hash l []) [] hnd (by intro a _; simp)

/-- Claim C9: a record whose publication-time string fails to parse is kept
with the zero timestamp — the Marketaux and EODHD mappings preserve every
record (length preserved; the degraded record with `GoTime.zeroTime` is in
the result) — and an unparseable timestamp never fails the fetch: on the
success path `fetchFromMarketaux` returns `ok` of the mapped records
whatever `parse` does. -/
theorem claim_unparseable_timestamp_kept (parse : String → Option GoTime)
    (data : List MarketauxItem) (edata : List EODHDItem) :
    ((marketauxArticles parse data).length = data.length ∧
     ∀ item ∈ data, parse item.publishedAt = none →
       (⟨item.source, item.title, item.description, item.url, GoTime.zeroTime⟩ : NewsArticle)
         ∈ marketauxArticles parse data) ∧
    ((eodhdArticles parse edata).length = edata.length ∧
     ∀ item ∈ edata, parse item.pubDate = none →
       (⟨item.source, item.title, "", item.url, GoTime.zeroTime⟩ : NewsArticle)
         ∈ eodhdArticles parse edata) ∧
    (∀ (env : Env) (doGet : String → RetryResult) (dm : String → Option MarketauxResp)
       (company : String) (cfg : NewsPipelineConfig) (resp : MarketauxResp),
       ¬cfg.MarketauxLimit ≤ 0 → ¬env.marketauxKey = "" →
       (doGet (marketauxUrl env company)).err = none →
       dm ((doGet (marketauxUrl env company)).body.getD "") = some resp →
       fetchFromMarketaux env doGet dm parse company cfg =
         (.ok (marketauxArticles parse resp.data), some (doGet (marketauxUrl env company)))) := by
  refine ⟨⟨by simp [marketauxArticles], ?_⟩, ⟨by simp [eodhdArticles], ?_⟩, ?_⟩
  · intro item hitem hparse
    exact List.mem_map.mpr ⟨item, hitem, by simp [hparse]⟩
  · intro item hitem hparse
    exact List.mem_map.mpr ⟨item, hitem, by simp [hparse]⟩
  · intro env doGet dm company cfg resp hl hkey herr hdm
    simp [fetchFromMarketaux, hl, hkey, herr, hdm]

/-- Witness for C9: an always-failing parser keeps the concrete Marketaux
and EODHD records with the zero timestamp, and the concrete fetch still
succeeds. -/
theorem claim_unparseable_timestamp_kept_witness :
    (⟨"Src", "Title", "Desc", "u9", GoTime.zeroTime⟩ : NewsArticle)
      ∈ marketauxArticles wParseFail [wMItem] ∧
    (⟨"Src", "Title", "", "u8", GoTime.zeroTime⟩ : NewsArticle)
      ∈ eodhdArticles wParseFail [wEItem] ∧
    fetchFromMarketaux wEnvKeys wDoGet wDecodeM wParseFail "ACME" wCfg =
      (.ok (marketauxArticles wParseFail [wMItem]),
       some (wDoGet (marketauxUrl wEnvKeys "ACME"))) := by
  have h := claim_unparseable_timestamp_kept wParseFail [wMItem] [wEItem]
  refine ⟨h.1.2 wMItem (List.mem_singleton.mpr rfl) rfl,
    h.2.1.2 wEItem (List.mem_singleton.mpr rfl) rfl, ?_⟩
  exact h.2.2 wEnvKeys wDoGet wDecodeM "ACME" wCfg ⟨[wMItem]⟩
    (by decide) (by decide) rfl rfl

/-- Claim C10: a request-construction failure makes `doGetWithRetry` return
nil bytes and that error immediately — zero `client.Do` attempts and zero
inter-attempt delays. -/
theorem claim_request_error_short_circuits (e : String) (attempts : Nat → AttemptOutcome) :
    doGetWithRetry (some e) attempts = ⟨none, some e, 0, 0⟩ := rfl

end GoNews
